import Mathlib

/-
Shallow embedding of the smlang state-machine code generator
(`macros/src/codegen.rs`) and of the reference example
(`examples/state_machine_logger.rs`).

The generator consumes a validated model (`ParsedStateMachine`) and emits a
runtime.  We embed the validated model as `Smlang.Machine` and the emitted
runtime's dispatch semantics (`process_event`, `state`, the `PartialEq`
impls, the capability-interface emission loop, and the `sm_is_async` flag)
as executable Lean functions over that model.  Payload values are drawn from
an arbitrary type `D`, guard errors from an arbitrary type `E`; every call
into the consumer context and every observation hook is recorded in an
explicit trace so that hook ordering and "the action ran / did not run" are
observable facts.
-/

namespace Smlang

/-- Embeds `parser::AsyncIdent`: a guard or action reference, an identifier
together with its `async` marker. -/
structure AsyncIdent where
  ident : String
  is_async : Bool
deriving DecidableEq, Repr

/-- One row of `sm.states_events_mapping`: input state, event, optional
guard, optional action, output state (`codegen.rs` reads these as
`value.in_state`, `value.event`, `value.guard`, `value.action`,
`value.out_state`). -/
structure Transition where
  in_state : String
  event : String
  guard : Option AsyncIdent
  action : Option AsyncIdent
  out_state : String
deriving DecidableEq, Repr

/-- The parts of `ParsedStateMachine` that the generated dispatch logic
depends on: the (state, event) → transition mapping, flattened to a list
(the mapping is a map of maps, so at most one entry exists per pair), and
the `state_data.data_types` / `event_data.data_types` maps giving the
payload type attached to a state or an event, with types kept as strings. -/
structure Machine where
  transitions : List Transition
  state_data_types : List (String × String)
  event_data_types : List (String × String)
deriving DecidableEq, Repr

/-- Whether a state name carries payload data (`sm.state_data.data_types.get`). -/
def Machine.stateHasData (m : Machine) (s : String) : Bool :=
  (m.state_data_types.lookup s).isSome

/-- Whether an event name carries payload data (`sm.event_data.data_types.get`). -/
def Machine.eventHasData (m : Machine) (e : String) : Bool :=
  (m.event_data_types.lookup e).isSome

/-- The generated `match` over `(state, event)`: the outer match arms range
over the keys of `states_events_mapping`, the inner arms over the events
defined for that state, so dispatch selects the unique transition for the
pair, if any.  On the flattened list this is a first-match lookup. -/
def findTransition (m : Machine) (s e : String) : Option Transition :=
  m.transitions.find? (fun t => t.in_state == s && t.event == e)

/-- A value of the generated `States` enum: a variant tag plus the payload
carried by that variant, if any. -/
structure StateVal (D : Type) where
  tag : String
  payload : Option D
deriving DecidableEq, Repr

/-- A value of the generated `Events` enum: a variant tag plus the payload
carried by that variant, if any. -/
structure EventVal (D : Type) where
  tag : String
  payload : Option D
deriving DecidableEq, Repr

/-- The generated error enum (`#error_type_name`): `InvalidEvent`,
`GuardFailed(T)` and `Poisoned`. -/
inductive SmError (E : Type) where
  | InvalidEvent
  | GuardFailed (e : E)
  | Poisoned
deriving DecidableEq, Repr

/-- The consumer-implemented part of the capability interface, as pure
behaviour: `runGuard g sd ed` is the result of calling the guard method
named `g` with the current state payload and the event payload (the
generated code passes each by reference, and only when present);
`runAction a sd ed` is the value the action method named `a` returns
(used as the target state's payload when the target state carries data). -/
structure Context (D E : Type) where
  runGuard : String → Option D → Option D → Except E Unit
  runAction : String → Option D → Option D → D

instance {E A : Type} [DecidableEq E] [DecidableEq A] : DecidableEq (Except E A)
  | .error x, .error y => decidable_of_iff (x = y) (by simp)
  | .error _, .ok _ => isFalse (fun h => Except.noConfusion h)
  | .ok _, .error _ => isFalse (fun h => Except.noConfusion h)
  | .ok x, .ok y => decidable_of_iff (x = y) (by simp)

/-- One observable step of a dispatch: a call into a guard or action of the
consumer context, or one of the four observation hooks
(`log_process_event`, `log_guard`, `log_action`, `log_state_change`). -/
inductive Evt (D E : Type) where
  | logProcessEvent (s : StateVal D) (e : EventVal D)
  | callGuard (name : String)
  | logGuard (name : String) (result : Except E Unit)
  | callAction (name : String)
  | logAction (name : String)
  | logStateChange (s : StateVal D)
deriving DecidableEq, Repr

/-- Result of one `process_event` call: the internal `state: Option<States>`
slot after the call, the ordered trace of context calls and hooks, and the
returned `Result`. -/
structure DispatchResult (D E : Type) where
  state : Option (StateVal D)
  trace : List (Evt D E)
  result : Except (SmError E) (StateVal D)
deriving DecidableEq, Repr

/-- The generated `state()` accessor:
`self.state.as_ref().ok_or_else(|| Error::Poisoned)`. -/
def state {D E : Type} (slot : Option (StateVal D)) :
    Except (SmError E) (StateVal D) :=
  match slot with
  | some s => .ok s
  | none => .error .Poisoned

/-- The generated `process_event`, including the code blocks emitted per
transition (guard + action, guard only, action only, neither):

* `self.context.log_process_event(self.state()?, &event)` — the `?` on
  `self.state()` propagates `Poisoned` before the hook is invoked;
* `self.state.take().ok_or_else(|| Error::Poisoned)?` — take the state,
  leaving the slot empty for the duration of the match;
* on a matching transition with a guard: call the guard, invoke `log_guard`
  with its name and result; on `Err(e)` restore the original input state and
  return `GuardFailed(e)`;
* then, if an action is attached, call it, invoke `log_action`, build the
  output state from the action's value (only data-carrying target states
  bind `_data`; a data-carrying target without an action does not compile in
  the generated code, so those branches build a payload-free state), invoke
  `log_state_change`, store the new state and return `self.state()`;
* on no matching transition (inner `_` arm or outer `state` arm): restore
  the original state and return `InvalidEvent`. -/
def process_event {D E : Type} (m : Machine) (ctx : Context D E)
    (slot : Option (StateVal D)) (event : EventVal D) : DispatchResult D E :=
  match state (E := E) slot with
  | .error e => ⟨slot, [], .error e⟩
  | .ok s =>
    let tr0 := [Evt.logProcessEvent s event]
    match findTransition m s.tag event.tag with
    | some t =>
      match t.guard with
      | some g =>
        let guard_result := ctx.runGuard g.ident s.payload event.payload
        let tr1 := tr0 ++ [Evt.callGuard g.ident, Evt.logGuard g.ident guard_result]
        match guard_result with
        | .error e => ⟨some s, tr1, .error (.GuardFailed e)⟩
        | .ok _ =>
          match t.action with
          | some a =>
            let data := ctx.runAction a.ident s.payload event.payload
            let out : StateVal D :=
              ⟨t.out_state, if m.stateHasData t.out_state then some data else none⟩
            ⟨some out,
              tr1 ++ [Evt.callAction a.ident, Evt.logAction a.ident,
                Evt.logStateChange out],
              .ok out⟩
          | none =>
            let out : StateVal D := ⟨t.out_state, none⟩
            ⟨some out, tr1 ++ [Evt.logStateChange out], .ok out⟩
      | none =>
        match t.action with
        | some a =>
          let data := ctx.runAction a.ident s.payload event.payload
          let out : StateVal D :=
            ⟨t.out_state, if m.stateHasData t.out_state then some data else none⟩
          ⟨some out,
            tr0 ++ [Evt.callAction a.ident, Evt.logAction a.ident,
              Evt.logStateChange out],
            .ok out⟩
        | none =>
          let out : StateVal D := ⟨t.out_state, none⟩
          ⟨some out, tr0 ++ [Evt.logStateChange out], .ok out⟩
    | none => ⟨some s, tr0, .error .InvalidEvent⟩

/-- Recognizes an action invocation in a trace. -/
def isActionCall {D E : Type} : Evt D E → Bool
  | .callAction _ => true
  | _ => false

/-- Whether one transition's code block sets the `sm_is_async` flag: the
generator sets it while emitting `.await` for an `async` guard or an
`async` action of the transition. -/
def transitionIsAsync (t : Transition) : Bool :=
  (match t.guard with
   | some g => g.is_async
   | none => false) ||
  (match t.action with
   | some a => a.is_async
   | none => false)

/-- The `sm_is_async` flag: starts `false` and is set while mapping the
transitions into code blocks, so it ends up true exactly when some
transition has an `async` guard or an `async` action. -/
def sm_is_async (m : Machine) : Bool :=
  m.transitions.any transitionIsAsync

/-- Whether `process_event` is emitted with the `async` keyword: the
generator picks `is_async = async` exactly when `sm_is_async` is set and
splices it into `pub #is_async fn process_event`. -/
def process_event_is_async (m : Machine) : Bool := sm_is_async m

/-- Whether the capability interface (the context trait) is emitted with the
`#[smlang::async_trait]` attribute: the generator picks `is_async_trait`
exactly when `sm_is_async` is set and splices it onto the trait. -/
def context_trait_is_async (m : Machine) : Bool := sm_is_async m

/-- The manually generated `PartialEq for States`:
`discriminant(self) == discriminant(other)` — in the embedding, two state
values are the same variant exactly when their tags coincide, so the
discriminant comparison is tag comparison. -/
def statesEq {D : Type} (a b : StateVal D) : Bool :=
  a.tag == b.tag

/-- The manually generated `PartialEq for Events`, likewise comparing
discriminants (variant tags) only. -/
def eventsEq {D : Type} (a b : EventVal D) : Bool :=
  a.tag == b.tag

/-- The shape of a method emitted into the capability interface: its
`async` marker, the state-payload parameter type (present only when the
transition's input state carries data), the event-payload parameter type
(present only when the event carries data), and the return type (`none`
for guards, whose return is always `Result<(), GuardError>`; for actions,
the target state's payload type, or the unit type rendered `"()"`). -/
structure MethodSig where
  is_async : Bool
  state_data : Option String
  event_data : Option String
  ret : Option String
deriving DecidableEq, Repr

/-- The signature the generator emits for a guard at a given transition:
state payload by reference (from the input state's data type), event
payload by reference (from the event's data type). -/
def guardSigAt (m : Machine) (t : Transition) (g : AsyncIdent) : MethodSig :=
  ⟨g.is_async, m.state_data_types.lookup t.in_state,
    m.event_data_types.lookup t.event, none⟩

/-- The signature the generator emits for an action at a given transition:
state and event payloads by value, returning the output state's payload
type (or the empty tuple type when the output state carries no data). -/
def actionSigAt (m : Machine) (t : Transition) (a : AsyncIdent) : MethodSig :=
  ⟨a.is_async, m.state_data_types.lookup t.in_state,
    m.event_data_types.lookup t.event,
    some ((m.state_data_types.lookup t.out_state).getD "()")⟩

/-- One step of the generator's guard emission: if the transition has a
guard whose identifier is not yet in the emitted list, append the guard
with the signature taken from this transition
(`if !guard_set.iter().any(|g| g == guard) { guard_set.push(...); guard_list.extend(...) }`). -/
def emitGuardStep (m : Machine) (acc : List (String × MethodSig))
    (t : Transition) : List (String × MethodSig) :=
  match t.guard with
  | some g =>
    if acc.any (fun p => p.1 == g.ident) then acc
    else acc ++ [(g.ident, guardSigAt m t g)]
  | none => acc

/-- One step of the generator's action emission, deduplicating by
identifier exactly like `emitGuardStep`. -/
def emitActionStep (m : Machine) (acc : List (String × MethodSig))
    (t : Transition) : List (String × MethodSig) :=
  match t.action with
  | some a =>
    if acc.any (fun p => p.1 == a.ident) then acc
    else acc ++ [(a.ident, actionSigAt m t a)]
  | none => acc

/-- The guard methods of the capability interface (`guard_list`), built by
folding the emission step over every transition. -/
def emittedGuards (m : Machine) : List (String × MethodSig) :=
  m.transitions.foldl (emitGuardStep m) []

/-- The action methods of the capability interface (`action_list`), built by
folding the emission step over every transition. -/
def emittedActions (m : Machine) : List (String × MethodSig) :=
  m.transitions.foldl (emitActionStep m) []

/-- Whether some transition of the machine references a guard with this
identifier. -/
def guardReferenced (m : Machine) (n : String) : Bool :=
  m.transitions.any (fun t =>
    match t.guard with
    | some g => g.ident == n
    | none => false)

/-- Whether some transition of the machine references an action with this
identifier. -/
def actionReferenced (m : Machine) (n : String) : Bool :=
  m.transitions.any (fun t =>
    match t.action with
    | some a => a.ident == n
    | none => false)

/-- The common shape of the two emission steps, abstracted over how a
transition yields a (identifier, signature) entry: append the entry unless
an entry with the same identifier was already emitted. -/
def emitStepF (f : Transition → Option (String × MethodSig))
    (acc : List (String × MethodSig)) (t : Transition) :
    List (String × MethodSig) :=
  match f t with
  | some p => if acc.any (fun q => q.1 == p.1) then acc else acc ++ [p]
  | none => acc

/-- The guard entry a transition contributes to the emission fold. -/
def guardEntry (m : Machine) (t : Transition) : Option (String × MethodSig) :=
  t.guard.map (fun g => (g.ident, guardSigAt m t g))

/-- The action entry a transition contributes to the emission fold. -/
def actionEntry (m : Machine) (t : Transition) : Option (String × MethodSig) :=
  t.action.map (fun a => (a.ident, actionSigAt m t a))

/-- A model in which one guard identifier is referenced by two transitions
with different payload shapes: from `S1` (no state data) on `E1` and from
`S2` (which carries data of type `D`) on `E2`, both into the data-free
state `S1`.  The emission loop keeps the first signature it sees. -/
def mixedSigMachine : Machine where
  transitions :=
    [⟨"S1", "E1", some ⟨"g", false⟩, none, "S1"⟩,
     ⟨"S2", "E2", some ⟨"g", false⟩, none, "S1"⟩]
  state_data_types := [("S2", "D")]
  event_data_types := []

/-- The classification of a trace entry used to state hook ordering: which
of the four observation hooks it is, if any (context calls are dropped). -/
inductive HookKind where
  | processEvent
  | guard
  | action
  | stateChange
deriving DecidableEq, Repr

/-- Projects a dispatch trace onto the sequence of observation hooks that
fired, by kind. -/
def hookKindsOf {D E : Type} (tr : List (Evt D E)) : List HookKind :=
  tr.filterMap fun e =>
    match e with
    | .logProcessEvent _ _ => some .processEvent
    | .logGuard _ _ => some .guard
    | .logAction _ => some .action
    | .logStateChange _ => some .stateChange
    | _ => none

/-
The reference example, `examples/state_machine_logger.rs`:

  *State1 + Event1(MyEventData) [guard1] / action1 = State2,
  State2(MyStateData) + Event2  [guard2] / action2 = State3,

with `MyEventData(u32)` and `MyStateData(u32)` modelled as bare naturals.
-/

/-- The validated model of the logger example's transition table. -/
def loggerMachine : Machine where
  transitions :=
    [⟨"State1", "Event1", some ⟨"guard1", false⟩, some ⟨"action1", false⟩, "State2"⟩,
     ⟨"State2", "Event2", some ⟨"guard2", false⟩, some ⟨"action2", false⟩, "State3"⟩]
  state_data_types := [("State2", "MyStateData")]
  event_data_types := [("Event1", "MyEventData")]

/-- The logger example's `Context` implementation: `guard1` accepts even
event payloads, `guard2` accepts even state payloads, `action1` turns the
event payload into the next state's payload, `action2` returns unit (its
value is never used as a payload, since `State3` carries none).  The
catch-all arms are unreachable at the machine's call sites, where each
guard and action is only invoked with the payloads its transition provides. -/
def loggerContext : Context Nat Unit where
  runGuard := fun name state_data event_data =>
    match name, state_data, event_data with
    | "guard1", _, some v => if v % 2 == 0 then .ok () else .error ()
    | "guard2", some v, _ => if v % 2 == 0 then .ok () else .error ()
    | _, _, _ => .error ()
  runAction := fun name _ event_data =>
    match name, event_data with
    | "action1", some v => v
    | _, _ => 0

/-- C9: the `state()` accessor returns the current state exactly when the
internal slot holds one, and fails with `Poisoned` exactly when the slot is
empty. -/
theorem state_accessor_poisoned_iff_empty {D E : Type} (slot : Option (StateVal D)) :
    (∀ s : StateVal D, state (E := E) slot = .ok s ↔ slot = some s) ∧
    (state (E := E) slot = .error .Poisoned ↔ slot = none) := by
  cases slot <;> simp [state]

/-- C10: if the internal state slot is empty when `process_event` is called,
the dispatch returns `Poisoned` with an empty trace — no observation hook
fires and no guard or action is called — and the slot remains empty. -/
theorem poisoned_entry_no_hooks {D E : Type} (m : Machine) (ctx : Context D E)
    (ev : EventVal D) :
    process_event m ctx none ev = ⟨none, [], .error .Poisoned⟩ := rfl

/-- C7: equality of generated state values, and likewise of generated event
values, holds exactly when the two values are the same variant; the payload
fields play no part in the comparison. -/
theorem eq_compares_tags_only {D : Type} (a b : StateVal D) (c d : EventVal D) :
    (statesEq a b = true ↔ a.tag = b.tag) ∧
    (eventsEq c d = true ↔ c.tag = d.tag) := by
  simp [statesEq, eventsEq]

/-- C8: the logger example's documented scenario: from `State1`,
`Event1(1)` fails with `GuardFailed` and the machine stays in `State1`;
from `State1`, `Event1(0)` succeeds and produces `State2(0)`; from
`State2(0)`, `Event2` succeeds and transitions to `State3`. -/
theorem logger_example_scenario :
    (process_event loggerMachine loggerContext (some ⟨"State1", none⟩)
        ⟨"Event1", some 1⟩).result = .error (.GuardFailed ()) ∧
    (process_event loggerMachine loggerContext (some ⟨"State1", none⟩)
        ⟨"Event1", some 1⟩).state = some ⟨"State1", none⟩ ∧
    (process_event loggerMachine loggerContext (some ⟨"State1", none⟩)
        ⟨"Event1", some 0⟩).result = .ok ⟨"State2", some 0⟩ ∧
    (process_event loggerMachine loggerContext (some ⟨"State1", none⟩)
        ⟨"Event1", some 0⟩).state = some ⟨"State2", some 0⟩ ∧
    (process_event loggerMachine loggerContext (some ⟨"State2", some 0⟩)
        ⟨"Event2", none⟩).result = .ok ⟨"State3", none⟩ := by
  decide

/-- C2: when no transition is defined for the current state and the incoming
event, `process_event` restores the original state value unchanged and
returns `InvalidEvent`; only the `log_process_event` hook fires. -/
theorem invalid_event_preserves_state {D E : Type} (m : Machine) (ctx : Context D E)
    (s : StateVal D) (ev : EventVal D)
    (h : findTransition m s.tag ev.tag = none) :
    process_event m ctx (some s) ev =
      ⟨some s, [Evt.logProcessEvent s ev], .error .InvalidEvent⟩ := by
  simp [process_event, state, h]

/-- Witness for C2 at the logger example: `Event2` has no transition from
`State1`. -/
theorem invalid_event_preserves_state_witness :
    process_event loggerMachine loggerContext (some ⟨"State1", none⟩) ⟨"Event2", none⟩ =
      ⟨some ⟨"State1", none⟩,
        [Evt.logProcessEvent ⟨"State1", none⟩ ⟨"Event2", none⟩],
        .error .InvalidEvent⟩ :=
  invalid_event_preserves_state loggerMachine loggerContext
    ⟨"State1", none⟩ ⟨"Event2", none⟩ (by decide)

/-- C1: when the transition selected for the current state and event has a
guard and the guard returns `Err e`, `process_event` restores the original
input state (same variant, same payload), never calls the transition's
action (the trace contains no action call), and returns `GuardFailed e`;
the hooks that fired are `log_process_event` and `log_guard` (with the
guard's name and error result). -/
theorem guard_failure_restores_state {D E : Type} (m : Machine) (ctx : Context D E)
    (s : StateVal D) (ev : EventVal D) (t : Transition) (g : AsyncIdent) (e : E)
    (ht : findTransition m s.tag ev.tag = some t)
    (hg : t.guard = some g)
    (he : ctx.runGuard g.ident s.payload ev.payload = .error e) :
    process_event m ctx (some s) ev =
      ⟨some s,
        [Evt.logProcessEvent s ev, Evt.callGuard g.ident,
          Evt.logGuard g.ident (.error e)],
        .error (.GuardFailed e)⟩ ∧
    (process_event m ctx (some s) ev).trace.any isActionCall = false := by
  have h1 : process_event m ctx (some s) ev =
      ⟨some s,
        [Evt.logProcessEvent s ev, Evt.callGuard g.ident,
          Evt.logGuard g.ident (.error e)],
        .error (.GuardFailed e)⟩ := by
    simp [process_event, state, ht, hg, he]
  exact ⟨h1, by rw [h1]; rfl⟩

/-- Witness for C1 at the logger example: `guard1` rejects the odd payload
of `Event1(1)`, so the machine stays in `State1`. -/
theorem guard_failure_restores_state_witness :
    process_event loggerMachine loggerContext (some ⟨"State1", none⟩) ⟨"Event1", some 1⟩ =
      ⟨some ⟨"State1", none⟩,
        [Evt.logProcessEvent ⟨"State1", none⟩ ⟨"Event1", some 1⟩,
          Evt.callGuard "guard1", Evt.logGuard "guard1" (.error ())],
        .error (.GuardFailed ())⟩ ∧
    (process_event loggerMachine loggerContext (some ⟨"State1", none⟩)
        ⟨"Event1", some 1⟩).trace.any isActionCall = false :=
  guard_failure_restores_state loggerMachine loggerContext
    ⟨"State1", none⟩ ⟨"Event1", some 1⟩
    ⟨"State1", "Event1", some ⟨"guard1", false⟩, some ⟨"action1", false⟩, "State2"⟩
    ⟨"guard1", false⟩ () (by decide) (by decide) (by decide)

/-- C3: the internal state slot, emptied by `take()` at the start of
dispatch, is written back on every exit path — success, guard failure and
invalid event — so a dispatch that begins with a present state ends with a
present state; the slot is left empty exactly in the poisoned condition,
and the dispatch reports `Poisoned` exactly when the slot was already empty
at entry. -/
theorem state_slot_restored_on_exit {D E : Type} (m : Machine) (ctx : Context D E)
    (slot : Option (StateVal D)) (ev : EventVal D) :
    ((process_event m ctx slot ev).state = none ↔ slot = none) ∧
    ((process_event m ctx slot ev).result = .error .Poisoned ↔ slot = none) := by
  cases slot with
  | none => simp [process_event, state]
  | some s =>
    cases ht : findTransition m s.tag ev.tag with
    | none => simp [process_event, state, ht]
    | some t =>
      cases hg : t.guard with
      | none =>
        cases ha : t.action with
        | none => simp [process_event, state, ht, hg, ha]
        | some a => simp [process_event, state, ht, hg, ha]
      | some g =>
        cases hr : ctx.runGuard g.ident s.payload ev.payload with
        | error e => simp [process_event, state, ht, hg, hr]
        | ok u =>
          cases ha : t.action with
          | none => simp [process_event, state, ht, hg, hr, ha]
          | some a => simp [process_event, state, ht, hg, hr, ha]

/-- Helper for C5: the guard or action component of `transitionIsAsync` is
true exactly when the optional reference is present and marked `async`. -/
theorem option_async_eq_true (o : Option AsyncIdent) :
    (match o with
     | some g => g.is_async
     | none => false) = true ↔ ∃ g, o = some g ∧ g.is_async = true := by
  cases o <;> simp

/-- C5: the generated `process_event` is emitted `async` exactly when some
transition in the model carries an `async` guard or an `async` action, the
capability interface gets the `async_trait` attribute under exactly the
same condition, and both follow the single model-wide `sm_is_async` flag —
there is no per-transition mixing. -/
theorem async_iff_any_async (m : Machine) :
    (process_event_is_async m = true ↔
      ∃ t ∈ m.transitions,
        (∃ g, t.guard = some g ∧ g.is_async = true) ∨
        (∃ a, t.action = some a ∧ a.is_async = true)) ∧
    context_trait_is_async m = process_event_is_async m ∧
    process_event_is_async m = sm_is_async m := by
  refine ⟨?_, rfl, rfl⟩
  simp only [process_event_is_async, sm_is_async, List.any_eq_true,
    transitionIsAsync, Bool.or_eq_true, option_async_eq_true]

/-- C4 counterexample: the claim that, on a defined transition, the hooks
that fire are `log_process_event`, then `log_guard` exactly when a guard is
present, then `log_action` exactly when an action is present, then
`log_state_change` on success, is false as stated: at the logger example,
dispatching `Event1(1)` from `State1` selects a transition that has the
action `action1`, yet the guard fails, the action never runs, and no
`log_action` hook fires. -/
theorem hook_firing_claim_counterexample :
    ¬ (∀ (m : Machine) (ctx : Context Nat Unit) (s : StateVal Nat)
        (ev : EventVal Nat) (t : Transition),
        findTransition m s.tag ev.tag = some t →
        hookKindsOf (process_event m ctx (some s) ev).trace =
          [HookKind.processEvent] ++
            (if t.guard.isSome then [HookKind.guard] else []) ++
            (if t.action.isSome then [HookKind.action] else []) ++
            (if (process_event m ctx (some s) ev).result.isOk
              then [HookKind.stateChange] else [])) := by
  intro h
  have hx := h loggerMachine loggerContext ⟨"State1", none⟩ ⟨"Event1", some 1⟩
    ⟨"State1", "Event1", some ⟨"guard1", false⟩, some ⟨"action1", false⟩, "State2"⟩
    (by decide)
  revert hx
  decide

/-- C4 (amended): within one `process_event` call that begins with a present
state, the observation hooks fire in the fixed order `log_process_event`,
then `log_guard` (exactly when the selected transition has a guard, after
the guard is evaluated), then `log_action` (exactly when the transition has
an action and the guard, if any, succeeded — i.e. when the action actually
executes, logged after it), then `log_state_change` (on every successful
transition); no other hook order is possible. -/
theorem hook_firing_order {D E : Type} (m : Machine) (ctx : Context D E)
    (s : StateVal D) (ev : EventVal D) :
    hookKindsOf (process_event m ctx (some s) ev).trace =
      [HookKind.processEvent] ++
        (match findTransition m s.tag ev.tag with
         | none => []
         | some t =>
           match t.guard with
           | some g =>
             [HookKind.guard] ++
               (match ctx.runGuard g.ident s.payload ev.payload with
                | .error _ => []
                | .ok _ =>
                  (if t.action.isSome then [HookKind.action] else []) ++
                    [HookKind.stateChange])
           | none =>
             (if t.action.isSome then [HookKind.action] else []) ++
               [HookKind.stateChange]) := by
  cases ht : findTransition m s.tag ev.tag with
  | none => simp [process_event, state, ht, hookKindsOf]
  | some t =>
    cases hg : t.guard with
    | none =>
      cases ha : t.action with
      | none => simp [process_event, state, ht, hg, ha, hookKindsOf]
      | some a => simp [process_event, state, ht, hg, ha, hookKindsOf]
    | some g =>
      cases hr : ctx.runGuard g.ident s.payload ev.payload with
      | error e => simp [process_event, state, ht, hg, hr, hookKindsOf]
      | ok u =>
        cases ha : t.action with
        | none => simp [process_event, state, ht, hg, hr, ha, hookKindsOf]
        | some a => simp [process_event, state, ht, hg, hr, ha, hookKindsOf]

/-- The guard emission step is the generic dedup step applied to guard
entries. -/
theorem emitGuardStep_eq_emitStepF (m : Machine) (acc : List (String × MethodSig))
    (t : Transition) : emitGuardStep m acc t = emitStepF (guardEntry m) acc t := by
  cases h : t.guard <;> simp [emitGuardStep, emitStepF, guardEntry, h]

/-- The action emission step is the generic dedup step applied to action
entries. -/
theorem emitActionStep_eq_emitStepF (m : Machine) (acc : List (String × MethodSig))
    (t : Transition) : emitActionStep m acc t = emitStepF (actionEntry m) acc t := by
  cases h : t.action <;> simp [emitActionStep, emitStepF, actionEntry, h]

/-- The emitted guard list as a generic dedup fold. -/
theorem emittedGuards_eq_foldl (m : Machine) :
    emittedGuards m = m.transitions.foldl (emitStepF (guardEntry m)) [] := by
  have h : emitGuardStep m = emitStepF (guardEntry m) :=
    funext fun acc => funext fun t => emitGuardStep_eq_emitStepF m acc t
  rw [emittedGuards, h]

/-- The emitted action list as a generic dedup fold. -/
theorem emittedActions_eq_foldl (m : Machine) :
    emittedActions m = m.transitions.foldl (emitStepF (actionEntry m)) [] := by
  have h : emitActionStep m = emitStepF (actionEntry m) :=
    funext fun acc => funext fun t => emitActionStep_eq_emitStepF m acc t
  rw [emittedActions, h]

/-- An identifier is among the keys after one emission step exactly when it
was already a key or this transition contributes an entry for it. -/
theorem emitStepF_keys_mem (f : Transition → Option (String × MethodSig))
    (acc : List (String × MethodSig)) (t : Transition) (n : String) :
    n ∈ (emitStepF f acc t).map Prod.fst ↔
      n ∈ acc.map Prod.fst ∨ ∃ σ, f t = some (n, σ) := by
  cases hft : f t with
  | none => simp [emitStepF, hft]
  | some p =>
    obtain ⟨k, σ⟩ := p
    by_cases hk : acc.any (fun q => q.1 == k) = true
    · have hkmem : k ∈ acc.map Prod.fst := by
        rcases List.any_eq_true.mp hk with ⟨q, hq, hqk⟩
        exact List.mem_map.mpr ⟨q, hq, by simpa using hqk⟩
      simp only [emitStepF, hft, hk, if_true]
      constructor
      · exact Or.inl
      · rintro (h | ⟨σ', hσ'⟩)
        · exact h
        · obtain ⟨hkn, -⟩ : k = n ∧ σ = σ' := by simpa using hσ'
          exact hkn ▸ hkmem
    · simp only [emitStepF, hft]
      rw [if_neg hk, List.map_append]
      simp only [List.mem_append, List.map_cons, List.map_nil,
        List.mem_singleton, Option.some.injEq, Prod.mk.injEq]
      constructor
      · rintro (h | h)
        · exact Or.inl h
        · exact Or.inr ⟨σ, h.symm, rfl⟩
      · rintro (h | ⟨σ', hkn, -⟩)
        · exact Or.inl h
        · exact Or.inr hkn.symm

/-- An identifier is among the keys produced by the emission fold exactly
when it was already a key of the accumulator or some folded transition
contributes an entry for it. -/
theorem foldl_emitStepF_keys_mem (f : Transition → Option (String × MethodSig))
    (ts : List Transition) (acc : List (String × MethodSig)) (n : String) :
    n ∈ (ts.foldl (emitStepF f) acc).map Prod.fst ↔
      n ∈ acc.map Prod.fst ∨ ∃ t ∈ ts, ∃ σ, f t = some (n, σ) := by
  induction ts generalizing acc with
  | nil => simp
  | cons t ts ih =>
    rw [List.foldl_cons, ih, emitStepF_keys_mem]
    simp only [List.mem_cons]
    constructor
    · rintro ((h | ⟨σ, hσ⟩) | ⟨t', ht', σ, hσ⟩)
      · exact Or.inl h
      · exact Or.inr ⟨t, Or.inl rfl, σ, hσ⟩
      · exact Or.inr ⟨t', Or.inr ht', σ, hσ⟩
    · rintro (h | ⟨t', ht' | ht', σ, hσ⟩)
      · exact Or.inl (Or.inl h)
      · exact Or.inl (Or.inr ⟨σ, ht' ▸ hσ⟩)
      · exact Or.inr ⟨t', ht', σ, hσ⟩

/-- One emission step never duplicates a key. -/
theorem emitStepF_keys_nodup (f : Transition → Option (String × MethodSig))
    (acc : List (String × MethodSig)) (t : Transition)
    (h : (acc.map Prod.fst).Nodup) :
    ((emitStepF f acc t).map Prod.fst).Nodup := by
  cases hft : f t with
  | none => simpa [emitStepF, hft] using h
  | some p =>
    obtain ⟨k, σ⟩ := p
    by_cases hk : acc.any (fun q => q.1 == k) = true
    · simpa [emitStepF, hft, hk] using h
    · have hkmem : k ∉ acc.map Prod.fst := by
        intro hmem
        rcases List.mem_map.mp hmem with ⟨q, hq, hqk⟩
        exact hk (List.any_eq_true.mpr ⟨q, hq, by simp [hqk]⟩)
      simp only [emitStepF, hft]
      rw [if_neg hk, List.map_append, List.nodup_append]
      refine ⟨h, List.nodup_singleton k, ?_⟩
      intro a ha hb
      simp only [List.map_cons, List.map_nil, List.mem_singleton] at hb
      exact hkmem (hb ▸ ha)

/-- The emission fold never duplicates a key. -/
theorem foldl_emitStepF_keys_nodup (f : Transition → Option (String × MethodSig))
    (ts : List Transition) (acc : List (String × MethodSig))
    (h : (acc.map Prod.fst).Nodup) :
    ((ts.foldl (emitStepF f) acc).map Prod.fst).Nodup := by
  induction ts generalizing acc with
  | nil => simpa using h
  | cons t ts ih => exact ih _ (emitStepF_keys_nodup f acc t h)

/-- One emission step preserves the property that every emitted entry with
a given identifier carries a given signature, provided this transition's
entry for that identifier (if any) carries that signature. -/
theorem emitStepF_uniform (f : Transition → Option (String × MethodSig))
    (acc : List (String × MethodSig)) (t : Transition) (n : String) (σ : MethodSig)
    (hacc : ∀ p ∈ acc, p.1 = n → p.2 = σ)
    (hft : ∀ σ', f t = some (n, σ') → σ' = σ) :
    ∀ p ∈ emitStepF f acc t, p.1 = n → p.2 = σ := by
  cases hf : f t with
  | none => simpa [emitStepF, hf] using hacc
  | some p =>
    obtain ⟨k, σ'⟩ := p
    by_cases hk : acc.any (fun q => q.1 == k) = true
    · simpa [emitStepF, hf, hk] using hacc
    · simp only [emitStepF, hf]
      rw [if_neg hk]
      intro q hq hqn
      rcases List.mem_append.mp hq with hq | hq
      · exact hacc q hq hqn
      · simp only [List.mem_singleton] at hq
        subst hq
        simp only at hqn
        subst hqn
        exact hft σ' hf

/-- The emission fold preserves signature uniformity for a given identifier
when every folded transition's entry for it carries the given signature. -/
theorem foldl_emitStepF_uniform (f : Transition → Option (String × MethodSig))
    (ts : List Transition) (acc : List (String × MethodSig)) (n : String)
    (σ : MethodSig)
    (hacc : ∀ p ∈ acc, p.1 = n → p.2 = σ)
    (hts : ∀ t ∈ ts, ∀ σ', f t = some (n, σ') → σ' = σ) :
    ∀ p ∈ ts.foldl (emitStepF f) acc, p.1 = n → p.2 = σ := by
  induction ts generalizing acc with
  | nil => simpa using hacc
  | cons t ts ih =>
    rw [List.foldl_cons]
    exact ih _
      (emitStepF_uniform f acc t n σ hacc
        (hts t (List.mem_cons_self t ts)))
      (fun t' ht' => hts t' (List.mem_cons_of_mem t ht'))

/-- In a list of entries in which every entry with a given key carries a
given value, looking the key up yields that value as soon as the key is
present. -/
theorem lookup_of_uniform_mem (l : List (String × MethodSig)) (n : String)
    (σ : MethodSig)
    (hu : ∀ p ∈ l, p.1 = n → p.2 = σ) (hm : n ∈ l.map Prod.fst) :
    l.lookup n = some σ := by
  induction l with
  | nil => simp at hm
  | cons p l ih =>
    obtain ⟨k, s⟩ := p
    by_cases hk : n = k
    · subst hk
      have hs : s = σ := hu (n, s) (List.mem_cons_self _ _) rfl
      simp [List.lookup, hs]
    · have hne : (n == k) = false := by simp [hk]
      simp only [List.lookup, hne]
      refine ih (fun q hq hqn => hu q (List.mem_cons_of_mem _ hq) hqn) ?_
      simp only [List.map_cons, List.mem_cons] at hm
      rcases hm with hm | hm
      · exact absurd hm hk
      · exact hm

/-- A guard identifier is referenced exactly when some transition carries a
guard with that identifier. -/
theorem guardReferenced_iff (m : Machine) (n : String) :
    guardReferenced m n = true ↔
      ∃ t ∈ m.transitions, ∃ g, t.guard = some g ∧ g.ident = n := by
  simp only [guardReferenced, List.any_eq_true]
  constructor
  · rintro ⟨t, ht, hmatch⟩
    cases hg : t.guard with
    | none => rw [hg] at hmatch; simp at hmatch
    | some g =>
      rw [hg] at hmatch
      exact ⟨t, ht, g, hg, by simpa using hmatch⟩
  · rintro ⟨t, ht, g, hg, rfl⟩
    exact ⟨t, ht, by simp [hg]⟩

/-- An action identifier is referenced exactly when some transition carries
an action with that identifier. -/
theorem actionReferenced_iff (m : Machine) (n : String) :
    actionReferenced m n = true ↔
      ∃ t ∈ m.transitions, ∃ a, t.action = some a ∧ a.ident = n := by
  simp only [actionReferenced, List.any_eq_true]
  constructor
  · rintro ⟨t, ht, hmatch⟩
    cases hg : t.action with
    | none => rw [hg] at hmatch; simp at hmatch
    | some a =>
      rw [hg] at hmatch
      exact ⟨t, ht, a, hg, by simpa using hmatch⟩
  · rintro ⟨t, ht, a, hg, rfl⟩
    exact ⟨t, ht, by simp [hg]⟩

/-- Characterization of the guard entry contributed by a transition. -/
theorem guardEntry_eq_some (m : Machine) (t : Transition) (n : String)
    (σ : MethodSig) :
    guardEntry m t = some (n, σ) ↔
      ∃ g, t.guard = some g ∧ g.ident = n ∧ guardSigAt m t g = σ := by
  cases hg : t.guard <;> simp [guardEntry, hg]

/-- Characterization of the action entry contributed by a transition. -/
theorem actionEntry_eq_some (m : Machine) (t : Transition) (n : String)
    (σ : MethodSig) :
    actionEntry m t = some (n, σ) ↔
      ∃ a, t.action = some a ∧ a.ident = n ∧ actionSigAt m t a = σ := by
  cases ha : t.action <;> simp [actionEntry, ha]

/-- C6 counterexample: the claim that every referenced identifier is
emitted once *and* that the emitted signature fits every transition that
references it is false as stated: in `mixedSigMachine` the guard `g` is
referenced from a data-free state and from a data-carrying state, the
emission loop keeps the first signature (no state-payload parameter), and
that signature does not match the second referencing transition, which
would pass a state payload of type `D`. -/
theorem capability_signature_counterexample :
    ¬ (∀ (m : Machine) (n : String),
        (∀ t ∈ m.transitions, ∀ g, t.guard = some g → g.ident = n →
          ((emittedGuards m).map Prod.fst).count n = 1 ∧
          (emittedGuards m).lookup n = some (guardSigAt m t g)) ∧
        (∀ t ∈ m.transitions, ∀ a, t.action = some a → a.ident = n →
          ((emittedActions m).map Prod.fst).count n = 1 ∧
          (emittedActions m).lookup n = some (actionSigAt m t a))) := by
  intro h
  have hx := (h mixedSigMachine "g").1
    ⟨"S2", "E2", some ⟨"g", false⟩, none, "S1"⟩ (by decide)
    ⟨"g", false⟩ rfl rfl
  revert hx
  decide

/-- C6 (amended): every referenced guard identifier and every referenced
action identifier is emitted exactly once into the capability interface,
regardless of how many transitions reference it; the emitted signature is
the one computed at the first referencing transition, so it is usable at
every referencing transition exactly when all transitions referencing that
identifier agree on the signature — in that case the emitted signature is
each referencing site's own signature.  (Incompatible reuse is not detected
by the generator.) -/
theorem capability_methods_emitted_once (m : Machine) (ng na : String)
    (hg : guardReferenced m ng = true)
    (ha : actionReferenced m na = true) :
    ((emittedGuards m).map Prod.fst).count ng = 1 ∧
    ((emittedActions m).map Prod.fst).count na = 1 ∧
    (∀ t ∈ m.transitions, ∀ g, t.guard = some g → g.ident = ng →
      (∀ t' ∈ m.transitions, ∀ g', t'.guard = some g' → g'.ident = ng →
        guardSigAt m t' g' = guardSigAt m t g) →
      (emittedGuards m).lookup ng = some (guardSigAt m t g)) ∧
    (∀ t ∈ m.transitions, ∀ a, t.action = some a → a.ident = na →
      (∀ t' ∈ m.transitions, ∀ a', t'.action = some a' → a'.ident = na →
        actionSigAt m t' a' = actionSigAt m t a) →
      (emittedActions m).lookup na = some (actionSigAt m t a)) := by
  have hgmem : ng ∈ (emittedGuards m).map Prod.fst := by
    rw [emittedGuards_eq_foldl, foldl_emitStepF_keys_mem]
    rcases (guardReferenced_iff m ng).mp hg with ⟨t, ht, g, hgt, hid⟩
    exact Or.inr ⟨t, ht, guardSigAt m t g,
      (guardEntry_eq_some m t ng _).mpr ⟨g, hgt, hid, rfl⟩⟩
  have hamem : na ∈ (emittedActions m).map Prod.fst := by
    rw [emittedActions_eq_foldl, foldl_emitStepF_keys_mem]
    rcases (actionReferenced_iff m na).mp ha with ⟨t, ht, a, hat, hid⟩
    exact Or.inr ⟨t, ht, actionSigAt m t a,
      (actionEntry_eq_some m t na _).mpr ⟨a, hat, hid, rfl⟩⟩
  have hgnodup : ((emittedGuards m).map Prod.fst).Nodup := by
    rw [emittedGuards_eq_foldl]
    exact foldl_emitStepF_keys_nodup _ _ _ (by simp)
  have hanodup : ((emittedActions m).map Prod.fst).Nodup := by
    rw [emittedActions_eq_foldl]
    exact foldl_emitStepF_keys_nodup _ _ _ (by simp)
  refine ⟨List.count_eq_one_of_mem hgnodup hgmem,
    List.count_eq_one_of_mem hanodup hamem, ?_, ?_⟩
  · intro t ht g hgt hid hagree
    have huni : ∀ p ∈ emittedGuards m, p.1 = ng → p.2 = guardSigAt m t g := by
      rw [emittedGuards_eq_foldl]
      refine foldl_emitStepF_uniform _ _ _ _ _ (by simp) ?_
      intro t' ht' σ' hσ'
      rcases (guardEntry_eq_some m t' ng σ').mp hσ' with ⟨g', hgt', hid', hsig'⟩
      rw [← hsig']
      exact hagree t' ht' g' hgt' hid'
    exact lookup_of_uniform_mem _ _ _ huni hgmem
  · intro t ht a hat hid hagree
    have huni : ∀ p ∈ emittedActions m, p.1 = na → p.2 = actionSigAt m t a := by
      rw [emittedActions_eq_foldl]
      refine foldl_emitStepF_uniform _ _ _ _ _ (by simp) ?_
      intro t' ht' σ' hσ'
      rcases (actionEntry_eq_some m t' na σ').mp hσ' with ⟨a', hat', hid', hsig'⟩
      rw [← hsig']
      exact hagree t' ht' a' hat' hid'
    exact lookup_of_uniform_mem _ _ _ huni hamem

/-- Witness for C6 at the logger example: `guard1` and `action1` are each
referenced by a single transition, so the agreement hypotheses hold
trivially and each is emitted once with its site's signature. -/
theorem capability_methods_emitted_once_witness :
    guardReferenced loggerMachine "guard1" = true ∧
    actionReferenced loggerMachine "action1" = true ∧
    ((emittedGuards loggerMachine).map Prod.fst).count "guard1" = 1 ∧
    ((emittedActions loggerMachine).map Prod.fst).count "action1" = 1 :=
  ⟨by decide, by decide,
    (capability_methods_emitted_once loggerMachine "guard1" "action1"
      (by decide) (by decide)).1,
    (capability_methods_emitted_once loggerMachine "guard1" "action1"
      (by decide) (by decide)).2.1⟩

end Smlang
